import Mathlib

/-!
Verification of the lazyas skill-manager core against its specification.

Go strings are modelled as lists of byte values (`ByteStr`); Go's byte-level
indexing, slicing and `len` become list operations.  Filesystem trees are
modelled by `FsNode`; symbolic links carry their resolved target directly
(`stat` follows one link, `lstat` does not).  External processes (git, the
YAML parser) are modelled by explicit parameters standing for their results.
-/

namespace Lazyas

/-- Go strings as byte lists; ASCII text is produced with `bytes`. -/
abbrev ByteStr := List Nat

/-- Byte list of an ASCII string literal. -/
def bytes (s : String) : ByteStr := s.data.map Char.toNat

/-! ## skillmd (src/internal/skillmd/parse.go) -/

/-- Function `SplitLines`: split on newline (byte 10); a trailing segment is kept only
when non-empty, exactly as the Go loop appends `s[start:]` only when
`start < len(s)`. -/
def splitLines : ByteStr → List ByteStr
  | [] => []
  | b :: rest =>
    if b = 10 then [] :: splitLines rest
    else
      match splitLines rest with
      | [] => [[b]]
      | l :: ls => (b :: l) :: ls

/-- The characters trimmed by `TrimSpace`: space, tab, carriage return. -/
def isGoSpace (b : Nat) : Bool := b = 32 || b = 9 || b = 13

/-- Function `TrimSpace`: drop leading and trailing spaces, tabs and carriage returns. -/
def trimSpace (s : ByteStr) : ByteStr :=
  ((s.dropWhile isGoSpace).reverse.dropWhile isGoSpace).reverse

/-- The `...` suffix appended on truncation. -/
def dots : ByteStr := bytes ("...")

/-- The loop body of `ExtractDescription`, carrying the `inFrontmatter` flag
and the `frontmatterCount` counter exactly as the Go code does. -/
def extractLoop : List ByteStr → Bool → Nat → ByteStr
  | [], _, _ => []
  | line :: rest, inFm, cnt =>
    let t := trimSpace line
    if t = bytes ("---") then
      let cnt' := cnt + 1
      let inFm' : Bool := if cnt' = 2 then false else cnt' = 1
      extractLoop rest inFm' cnt'
    else if inFm then
      if 12 < t.length ∧ t.take 12 = bytes ("description:") then
        let d := trimSpace (t.drop 12)
        let d := if 2 ≤ d.length ∧ (d.head? = some 34 ∨ d.head? = some 39)
                 then (d.drop 1).dropLast else d
        if 100 < d.length then d.take 97 ++ dots else d
      else extractLoop rest inFm cnt
    else if t = [] then extractLoop rest inFm cnt
    else if t.head? = some 35 then extractLoop rest inFm cnt
    else if 3 ≤ t.length ∧ t.take 3 = bytes ("```") then extractLoop rest inFm cnt
    else if t.head? = some 45 then extractLoop rest inFm cnt
    else if 100 < t.length then t.take 97 ++ dots else t

/-- Function `ExtractDescription` (src/internal/skillmd/parse.go): frontmatter
`description:` value with one layer of quotes stripped, otherwise the first
body content line; either result truncated past 100 bytes. -/
def extractDescription (content : ByteStr) : ByteStr :=
  extractLoop (splitLines content) false 0

/-- The truncation policy applied at every return site of
`ExtractDescription`. -/
def truncate100 (s : ByteStr) : ByteStr :=
  if 100 < s.length then s.take 97 ++ dots else s

/-- Function `extractLoop` without the truncation step, used to state that truncation
is the only difference between the extracted text and the returned text. -/
def rawLoop : List ByteStr → Bool → Nat → ByteStr
  | [], _, _ => []
  | line :: rest, inFm, cnt =>
    let t := trimSpace line
    if t = bytes ("---") then
      let cnt' := cnt + 1
      let inFm' : Bool := if cnt' = 2 then false else cnt' = 1
      rawLoop rest inFm' cnt'
    else if inFm then
      if 12 < t.length ∧ t.take 12 = bytes ("description:") then
        let d := trimSpace (t.drop 12)
        if 2 ≤ d.length ∧ (d.head? = some 34 ∨ d.head? = some 39)
        then (d.drop 1).dropLast else d
      else rawLoop rest inFm cnt
    else if t = [] then rawLoop rest inFm cnt
    else if t.head? = some 35 then rawLoop rest inFm cnt
    else if 3 ≤ t.length ∧ t.take 3 = bytes ("```") then rawLoop rest inFm cnt
    else if t.head? = some 45 then rawLoop rest inFm cnt
    else t

/-- The untruncated description text. -/
def rawExtract (content : ByteStr) : ByteStr :=
  rawLoop (splitLines content) false 0

/-! ## Filesystem model

A node is a regular file, a directory (association list of child name to
node), or a symbolic link carrying its resolved target (`none` when
dangling).  `stat` follows the link, `lstat` does not; directory listings
report the lstat kind of each entry, as Go's `os.ReadDir` does. -/

inductive FsNode where
  | file (content : ByteStr)
  | dir (entries : List (ByteStr × FsNode))
  | symlink (target : Option FsNode)

/-- Directory lookup by entry name. -/
def lookupE : List (ByteStr × FsNode) → ByteStr → Option FsNode
  | [], _ => none
  | (n, e) :: rest, m => if n = m then some e else lookupE rest m

/-- Function `stat` on a single node: follow a symbolic link to its target. -/
def statNode : FsNode → Option FsNode
  | .symlink t => t
  | e => some e

/-- Function `DirEntry.IsDir`: the lstat kind of the entry, false for symlinks. -/
def entryIsDir : FsNode → Bool
  | .dir _ => true
  | _ => false

/-- Resolve a relative path from a root node, following symbolic links at
every traversed component (as `os.Stat` and `os.Open` do). -/
def resolvePath : FsNode → List ByteStr → Option FsNode
  | e, [] => some e
  | e, n :: p =>
    match statNode e with
    | some (.dir es) =>
      match lookupE es n with
      | some child => resolvePath child p
      | none => none
    | _ => none

/-- Function `os.Stat` of a path: resolve it and follow a final symbolic link. -/
def statPath (root : FsNode) (p : List ByteStr) : Option FsNode :=
  (resolvePath root p).bind statNode

/-- Function `os.ReadDir` of a path. -/
def readDirAt (root : FsNode) (p : List ByteStr) : Option (List (ByteStr × FsNode)) :=
  match statPath root p with
  | some (.dir es) => some es
  | _ => none

/-- Function `os.ReadFile` of a path. -/
def readFileAt (root : FsNode) (p : List ByteStr) : Option ByteStr :=
  match statPath root p with
  | some (.file c) => some c
  | _ => none

/-- The `SKILL.md` descriptor file name. -/
def skillMdName : ByteStr := bytes ("SKILL.md")

/-- A directory name is hidden when it starts with a dot. -/
def hiddenName (n : ByteStr) : Bool := n.headD 0 = 46

/-! ## Registry data model (part_001, registry types) -/

/-- Type `SkillSource`: where a skill entry is fetched from; `path` holds the
subpath inside the repository as path segments. -/
structure SkillSource where
  repo : ByteStr
  path : List ByteStr
  tag : ByteStr
  repoName : ByteStr
deriving DecidableEq, Repr

/-- Type `SkillEntry`: one listing of the merged index. -/
structure SkillEntry where
  name : ByteStr
  description : ByteStr
  source : SkillSource
  author : ByteStr
  tags : List ByteStr
deriving DecidableEq, Repr

/-- ASCII lower-casing of one byte, as `equalFoldAt` folds `A`..`Z`. -/
def foldEq (c1 c2 : Nat) : Bool :=
  if c1 = c2 then true
  else
    let c1 := if 65 ≤ c1 ∧ c1 ≤ 90 then c1 + 32 else c1
    let c2 := if 65 ≤ c2 ∧ c2 ≤ 90 then c2 + 32 else c2
    c1 = c2

/-- Function `equalFoldAt` on a chunk: fold-compare `sub` against a prefix of `s`. -/
def equalFoldChunk : ByteStr → ByteStr → Bool
  | _, [] => true
  | [], _ :: _ => false
  | a :: as', b :: bs => foldEq a b && equalFoldChunk as' bs

/-- Function `findIgnoreCase`: try `equalFoldAt` at every offset where `sub` fits. -/
def findIgnoreCase : ByteStr → ByteStr → Bool
  | s, sub =>
    if sub.length ≤ s.length then
      equalFoldChunk s sub ||
        (match s with
         | [] => false
         | _ :: tail => findIgnoreCase tail sub)
    else false

/-- Function `containsIgnoreCase` from the registry types. -/
def containsIgnoreCase (s sub : ByteStr) : Bool :=
  sub.length ≤ s.length &&
    (s = sub || sub.length = 0 || findIgnoreCase s sub)

/-- Method `SkillEntry.MatchesQuery`: empty query matches everything, otherwise a
case-insensitive substring match over name, description, author and tags. -/
def matchesQuery (s : SkillEntry) (q : ByteStr) : Bool :=
  if q = [] then true
  else
    containsIgnoreCase s.name q ||
    containsIgnoreCase s.description q ||
    containsIgnoreCase s.author q ||
    s.tags.any (fun t => containsIgnoreCase t q)

/-! ## Registry scanner (part_000, `scanForSkills`) -/

/-- Function `makeSkillEntry`: build an entry for the skill at `skillPath` (relative
to the clone root); the description is read from its `SKILL.md` when
readable. -/
def makeSkillEntry (root : FsNode) (nm : ByteStr) (skillPath : List ByteStr)
    (repoURL : ByteStr) : SkillEntry :=
  { name := nm
    description :=
      match readFileAt root (skillPath ++ [skillMdName]) with
      | some c => extractDescription c
      | none => []
    source := { repo := repoURL, path := skillPath, tag := [], repoName := [] }
    author := []
    tags := [] }

/-- Scanner state: emitted entries plus the `seen` subpath set used for
deduplication. -/
structure ScanSt where
  skills : List SkillEntry
  seen : List (List ByteStr)

/-- Append an entry unless its subpath was already seen. -/
def addSkill (st : ScanSt) (e : SkillEntry) : ScanSt :=
  if e.source.path ∈ st.seen then st
  else { skills := st.skills ++ [e], seen := st.seen ++ [e.source.path] }

/-- The inner loop of `scanForSkills`: one level deeper for the
category/skill-name layout. -/
def scanSub (root : FsNode) (repoURL : ByteStr) (skillDir : List ByteStr) :
    List (ByteStr × FsNode) → ScanSt → ScanSt
  | [], st => st
  | (n, node) :: rest, st =>
    if ¬ entryIsDir node ∨ hiddenName n then scanSub root repoURL skillDir rest st
    else
      let subDir := skillDir ++ [n]
      if (statPath root (subDir ++ [skillMdName])).isSome then
        scanSub root repoURL skillDir rest
          (addSkill st (makeSkillEntry root n subDir repoURL))
      else scanSub root repoURL skillDir rest st

/-- The outer loop of `scanForSkills` over the children of one search
directory. -/
def scanDirEntries (root : FsNode) (repoURL : ByteStr) (searchDir : List ByteStr) :
    List (ByteStr × FsNode) → ScanSt → ScanSt
  | [], st => st
  | (n, node) :: rest, st =>
    if ¬ entryIsDir node then scanDirEntries root repoURL searchDir rest st
    else if hiddenName n then scanDirEntries root repoURL searchDir rest st
    else
      let skillDir := searchDir ++ [n]
      if (statPath root (skillDir ++ [skillMdName])).isSome then
        scanDirEntries root repoURL searchDir rest
          (addSkill st (makeSkillEntry root n skillDir repoURL))
      else
        match node with
        | .dir subEs =>
          scanDirEntries root repoURL searchDir rest
            (scanSub root repoURL skillDir subEs st)
        | _ => scanDirEntries root repoURL searchDir rest st

/-- Scan one of the fixed search directories, skipping it when unreadable. -/
def scanSearchDir (root : FsNode) (repoURL : ByteStr) (sd : List ByteStr)
    (st : ScanSt) : ScanSt :=
  match readDirAt root sd with
  | some es => scanDirEntries root repoURL sd es st
  | none => st

/-- Function `scanForSkills` (part_000): a root `SKILL.md` makes a single-skill entry
(whose name `rootName` abstracts `inferRootSkillName`, an external URL
parse); then the search directories root, `skills/` and `external/skills/`
are scanned, deduplicating by subpath. -/
def scanForSkills (root : FsNode) (repoURL rootName : ByteStr) :
    Except ByteStr (List SkillEntry) :=
  let st : ScanSt := ⟨[], []⟩
  let st := if (statPath root [skillMdName]).isSome
            then addSkill st (makeSkillEntry root rootName [] repoURL) else st
  let st := scanSearchDir root repoURL [] st
  let st := scanSearchDir root repoURL [bytes ("skills")] st
  let st := scanSearchDir root repoURL [bytes ("external"), bytes ("skills")] st
  if st.skills = [] then .error (bytes ("no skills found")) else .ok st.skills

/-! ## Registry fetch merging (part_000, `Registry.Fetch`) -/

/-- A configured remote: user label plus git URL. -/
structure Repo where
  name : ByteStr
  url : ByteStr
deriving DecidableEq, Repr

/-- Tag fetched entries with the configured remote name when not already
set, as the loop body of `Fetch` does. -/
def tagSkills (rn : ByteStr) (l : List SkillEntry) : List SkillEntry :=
  l.map fun s =>
    if s.source.repoName = [] then
      { s with source := { s.source with repoName := rn } }
    else s

/-- The per-remote accumulation loop of `Fetch`: concatenate tagged entries
of successful remotes in configured order, collect error strings of failed
ones. -/
def fetchMerge : List (Repo × Except ByteStr (List SkillEntry)) →
    List SkillEntry × List ByteStr
  | [] => ([], [])
  | (r, .error e) :: rest =>
    let (s, es) := fetchMerge rest
    (s, (r.name ++ bytes (": ") ++ e) :: es)
  | (r, .ok skills) :: rest =>
    let (s, es) := fetchMerge rest
    (tagSkills r.name skills ++ s, es)

/-- The outcome of `Fetch` after the loop: the merged index is always set;
an aggregated error is reported only when some remote failed and zero
entries were collected. -/
def fetchOutcome (results : List (Repo × Except ByteStr (List SkillEntry))) :
    Except ByteStr (List SkillEntry) :=
  let (skills, errs) := fetchMerge results
  if errs ≠ [] ∧ skills = [] then .error (bytes ("failed to fetch from any repository"))
  else .ok skills

/-- Function `Registry.GetSkill`: first entry with the given name. -/
def getSkill (skills : List SkillEntry) (n : ByteStr) : Option SkillEntry :=
  skills.find? fun s => s.name = n

/-- Function `Registry.SearchSkills`. -/
def searchSkills (skills : List SkillEntry) (q : ByteStr) : List SkillEntry :=
  skills.filter fun s => matchesQuery s q

/-- Function `Registry.ListSkills`. -/
def listSkills (skills : List SkillEntry) : List SkillEntry := skills

/-! ## Index cache (src/internal/registry/cache.go) -/

/-- The serialised cache document: a nullable index pointer plus the fetch
time, in nanoseconds (Go `time.Time` compared through `time.Since`). -/
structure Cache where
  index : Option (List SkillEntry)
  fetchedAt : Int
deriving DecidableEq, Repr

/-- Nanoseconds in `time.Hour`. -/
def nanosPerHour : Int := 3600000000000

/-- Function `CacheManager.Load`: an absent file yields a null cache without error;
the YAML decode (modelled by `parse`) failing makes `Load` return that
error.  The manager's in-memory cache stays unset in both failure shapes. -/
def cacheLoad (file : Option ByteStr) (parse : ByteStr → Option Cache) :
    Except Unit (Option Cache) :=
  match file with
  | none => .ok none
  | some data =>
    match parse data with
    | none => .error ()
    | some c => .ok (some c)

/-- Function `CacheManager.IsValid`: requires a loaded cache with a non-null index
and `time.Since(fetched_at) < ttl` where `ttl = CacheTTL * time.Hour`. -/
def cacheIsValid (cache : Option Cache) (now ttlHours : Int) : Bool :=
  match cache with
  | none => false
  | some c => c.index.isSome && now - c.fetchedAt < ttlHours * nanosPerHour

/-! ## Git adapter (src/internal/git/repo.go) -/

/-- Abstract working state of one repository clone. -/
structure RepoSt where
  isGit : Bool
  modified : Bool
  head : ByteStr
deriving DecidableEq, Repr

/-- Results of the child git processes `Update` may spawn. -/
structure GitEnv where
  statusOk : Bool
  fetchOk : Bool
  resetOk : Bool
  headOk : Bool
  fetchedHead : ByteStr
deriving DecidableEq, Repr

/-- The git invocations `Update` can make, in order of execution. -/
inductive GitOp where
  | fetchTag (tag : ByteStr)
  | fetchDefault
  | resetHard
deriving DecidableEq, Repr

/-- Error kinds raised along `Update`. -/
inductive UpdateErr where
  | checkModifiedFailed
  | localChanges
  | fetchFailed
  | resetFailed
  | headFailed
deriving DecidableEq, Repr

/-- Type `CloneResult` as returned by `Update`. -/
structure CloneResult where
  commit : ByteStr
  path : ByteStr
deriving DecidableEq, Repr

/-- Function `IsModified`: a non-repository is never modified; otherwise report the
porcelain status (its process failure modelled by `statusOk`). -/
def isModified (s : RepoSt) (env : GitEnv) : Except UpdateErr Bool :=
  if ¬ s.isGit then .ok false
  else if ¬ env.statusOk then .error .checkModifiedFailed
  else .ok s.modified

/-- Function `Update`: refuse on local modifications, otherwise fetch (the tag when
given, the default branch otherwise) and hard-reset to `FETCH_HEAD`.
Returns the result, the final repository state, and the trace of git
invocations that mutate or touch the remote. -/
def update (s : RepoSt) (env : GitEnv) (tag sp : ByteStr) :
    Except UpdateErr CloneResult × RepoSt × List GitOp :=
  match isModified s env with
  | .error _ => (.error .checkModifiedFailed, s, [])
  | .ok true => (.error .localChanges, s, [])
  | .ok false =>
    let fetchOp := if tag ≠ [] then GitOp.fetchTag tag else GitOp.fetchDefault
    if ¬ env.fetchOk then (.error .fetchFailed, s, [fetchOp])
    else if ¬ env.resetOk then (.error .resetFailed, s, [fetchOp, .resetHard])
    else
      let s' : RepoSt := { s with head := env.fetchedHead, modified := false }
      if ¬ env.headOk then (.error .headFailed, s', [fetchOp, .resetHard])
      else (.ok { commit := env.fetchedHead, path := sp }, s', [fetchOp, .resetHard])

/-- Error kinds of the head queries. -/
inductive GitErr where
  | headCommitFailed
  | lsRemoteFailed
  | lsRemoteEmpty
deriving DecidableEq, Repr

/-- ASCII whitespace recognised by `strings.Fields`. -/
def isWhite (b : Nat) : Bool :=
  b = 32 || b = 9 || b = 10 || b = 13 || b = 11 || b = 12

/-- Function `strings.Fields`, restricted to ASCII whitespace. -/
def fieldsAux : ByteStr → ByteStr → List ByteStr
  | [], acc => if acc = [] then [] else [acc.reverse]
  | b :: r, acc =>
    if isWhite b then
      if acc = [] then fieldsAux r [] else acc.reverse :: fieldsAux r []
    else fieldsAux r (b :: acc)

/-- Field splitting of a command's output. -/
def fields (s : ByteStr) : List ByteStr := fieldsAux s []

/-- Function `RemoteHEAD`: first whitespace field of `git ls-remote origin HEAD`
(`lsRemoteOut` is that process's result); empty output is an error. -/
def remoteHEAD (lsRemoteOut : Except GitErr ByteStr) : Except GitErr ByteStr :=
  match lsRemoteOut with
  | .error _ => .error .lsRemoteFailed
  | .ok out =>
    match fields out with
    | [] => .error .lsRemoteEmpty
    | f :: _ => .ok f

/-- Function `IsRepoOutdated`: compare the local head (`localHead` is the result of
`git rev-parse HEAD`) with `RemoteHEAD`; every error path reports
not-outdated (`false`) alongside the error value. -/
def isRepoOutdated (localHead lsRemoteOut : Except GitErr ByteStr) :
    Bool × Option GitErr :=
  match localHead with
  | .error e => (false, some e)
  | .ok a =>
    match remoteHEAD lsRemoteOut with
    | .error e => (false, some e)
    | .ok b => (decide (a ≠ b), none)

/-! ## Manifest reconciliation scan (src/internal/manifest) -/

/-- Type `LocalSkill`: one classified entry of the managed skills directory. -/
structure LocalSkill where
  name : ByteStr
  path : List ByteStr
  description : ByteStr
  isGitRepo : Bool
  isModified : Bool
deriving DecidableEq, Repr

/-- The reserved internal directory name skipped by the scan. -/
def lazyasName : ByteStr := bytes (".lazyas")

/-- The `.git` marker name. -/
def gitName : ByteStr := bytes (".git")

/-- Description of an entry's `SKILL.md`, empty when unreadable. -/
def entryDescription (root : FsNode) (n : ByteStr) : ByteStr :=
  match readFileAt root [n, skillMdName] with
  | some c => extractDescription c
  | none => []

/-- Function `ScanLocalSkills` as in src/internal/manifest/manifest.go lines 131-177:
entries are filtered by `DirEntry.IsDir()` (an lstat kind, false for
symlinks) before anything else; its `isGitRepository` additionally requires
the resolved `.git` to be a directory.  `gitMod` models the
`git status --porcelain` child process per entry. -/
def scanLocalAux (root : FsNode) (gitMod : ByteStr → Bool) :
    List (ByteStr × FsNode) → List (ByteStr × LocalSkill)
  | [] => []
  | (n, node) :: rest =>
    if ¬ entryIsDir node then scanLocalAux root gitMod rest
    else if n = lazyasName then scanLocalAux root gitMod rest
    else if (statPath root [n, skillMdName]).isSome then
      let isGit : Bool :=
        match statPath root [n, gitName] with
        | some (.dir _) => true
        | _ => false
      (n, { name := n, path := [n],
            description := entryDescription root n,
            isGitRepo := isGit,
            isModified := if isGit then gitMod n else false }) ::
        scanLocalAux root gitMod rest
    else scanLocalAux root gitMod rest

/-- The cited `ScanLocalSkills` over a skills directory listing. -/
def scanLocalSkills (entries : List (ByteStr × FsNode)) (gitMod : ByteStr → Bool) :
    List (ByteStr × LocalSkill) :=
  scanLocalAux (.dir entries) gitMod entries

/-- The revised `ScanLocalSkills` (the manifest revision embedded in
src/internal/manifest/types.go): no `IsDir` pre-filter; instead `os.Stat`
follows the symlink and the entry is kept when the resolved target is a
directory; `isGitRepository` accepts any stat-able `.git`. -/
def scanLocalFollowAux (root : FsNode) (gitMod : ByteStr → Bool) :
    List (ByteStr × FsNode) → List (ByteStr × LocalSkill)
  | [] => []
  | (n, node) :: rest =>
    if n = lazyasName then scanLocalFollowAux root gitMod rest
    else
      match statNode node with
      | some (.dir _) =>
        if (statPath root [n, skillMdName]).isSome then
          let isGit : Bool := (statPath root [n, gitName]).isSome
          (n, { name := n, path := [n],
                description := entryDescription root n,
                isGitRepo := isGit,
                isModified := if isGit then gitMod n else false }) ::
            scanLocalFollowAux root gitMod rest
        else scanLocalFollowAux root gitMod rest
      | _ => scanLocalFollowAux root gitMod rest

/-- The revised scan over a skills directory listing. -/
def scanLocalSkillsFollow (entries : List (ByteStr × FsNode))
    (gitMod : ByteStr → Bool) : List (ByteStr × LocalSkill) :=
  scanLocalFollowAux (.dir entries) gitMod entries

/-! ## Symlink manager (part_008) -/

/-- The lstat shape of a backend's expanded path. -/
inductive BackendSt where
  | absent
  | linkToCentral
  | linkOther
  | realDir (entries : List (ByteStr × FsNode))
  | regFile

/-- Error kinds of the symlink manager. -/
inductive LinkErr where
  | alreadySymlink
  | notADirectory
  | statFailed
  | removeFailed
  | notASymlink
deriving DecidableEq, Repr

/-- Function `RemoveLink`: an absent path is success; only a symlink is deleted;
anything else is refused untouched. -/
def removeLink (b : BackendSt) : Except LinkErr Unit × BackendSt :=
  match b with
  | .absent => (.ok (), .absent)
  | .linkToCentral => (.ok (), .absent)
  | .linkOther => (.ok (), .absent)
  | .realDir es => (.error .notASymlink, .realDir es)
  | .regFile => (.error .notASymlink, .regFile)

/-- Whether `os.Stat` succeeds for name `n` inside the central directory
(the collision check of `MigrateExistingDir`). -/
def statPresent (cs : List (ByteStr × FsNode)) (n : ByteStr) : Bool :=
  match lookupE cs n with
  | some e => (statNode e).isSome
  | none => false

/-- Entry update as performed by `os.Rename` onto the destination path:
replace the binding when the name exists, append otherwise. -/
def setEntry : List (ByteStr × FsNode) → ByteStr → FsNode → List (ByteStr × FsNode)
  | [], n, e => [(n, e)]
  | (m, x) :: rest, n, e =>
    if m = n then (n, e) :: rest else (m, x) :: setEntry rest n e

/-- The move loop of `MigrateExistingDir`: each source entry is skipped
when its name already stats in the central directory, otherwise moved (the
cross-device copy-then-delete fallback has the same state effect).  Returns
the entries left behind and the new central listing. -/
def migrateLoop : List (ByteStr × FsNode) → List (ByteStr × FsNode) →
    List (ByteStr × FsNode) × List (ByteStr × FsNode)
  | [], central => ([], central)
  | (n, e) :: rest, central =>
    if statPresent central n then
      let (lo, c') := migrateLoop rest central
      ((n, e) :: lo, c')
    else migrateLoop rest (setEntry central n e)

/-- Function `MigrateExistingDir`: the backend path must be a real directory; move
its entries, then `os.Remove` it — which fails when entries were skipped —
and finally `CreateLink` replaces it by the symlink to the central
directory. -/
def migrateExistingDir (b : BackendSt) (central : List (ByteStr × FsNode)) :
    Except LinkErr Unit × BackendSt × List (ByteStr × FsNode) :=
  match b with
  | .absent => (.error .statFailed, .absent, central)
  | .linkToCentral => (.error .alreadySymlink, .linkToCentral, central)
  | .linkOther => (.error .alreadySymlink, .linkOther, central)
  | .regFile => (.error .notADirectory, .regFile, central)
  | .realDir es =>
    let (lo, c') := migrateLoop es central
    if lo.isEmpty then (.ok (), .linkToCentral, c')
    else (.error .removeFailed, .realDir lo, c')

/-! ## Concrete fixtures used by counterexamples and witnesses -/

/-- A skills-repo clone where `skills/foo/SKILL.md` is reachable both by the
root scan's category descent and by the `skills/` scan, parametric in the
descriptor content. -/
def doublyReachable (c : ByteStr) : FsNode :=
  .dir [(bytes ("skills"),
         .dir [(bytes ("foo"), .dir [(skillMdName, .file c)])])]

/-- The single entry the scan of `doublyReachable c` must produce. -/
def fooEntry (c u : ByteStr) : SkillEntry :=
  { name := bytes ("foo")
    description := extractDescription c
    source := { repo := u, path := [bytes ("skills"), bytes ("foo")], tag := [], repoName := [] }
    author := []
    tags := [] }

/-- A managed skills directory whose only entry is a symbolic link to a
directory containing a `SKILL.md` with frontmatter description `Test`. -/
def symlinkedSkillDir : List (ByteStr × FsNode) :=
  [(bytes ("foo"),
    .symlink (some (.dir [(skillMdName,
      .file (bytes ("---\ndescription: Test\n---\n")))])))]

/-- The scan record the symlinked skill should yield. -/
def symlinkedSkillRecord : LocalSkill :=
  { name := bytes ("foo")
    path := [bytes ("foo")]
    description := bytes ("Test")
    isGitRepo := false
    isModified := false }

/-- A duplicate-named index entry contributed by the first remote. -/
def dupFirst : SkillEntry :=
  { name := bytes ("dup")
    description := bytes ("first")
    source := { repo := bytes ("u1"), path := [], tag := [], repoName := [] }
    author := []
    tags := [] }

/-- A duplicate-named index entry contributed by the second remote. -/
def dupSecond : SkillEntry :=
  { name := bytes ("dup")
    description := bytes ("second")
    source := { repo := bytes ("u2"), path := [], tag := [], repoName := [] }
    author := []
    tags := [] }

/-- The index merged from two remotes that both provide a skill named
`dup`. -/
def dupMerged : List SkillEntry :=
  (fetchMerge [(⟨bytes ("one"), bytes ("u1")⟩, .ok [dupFirst]),
               (⟨bytes ("two"), bytes ("u2")⟩, .ok [dupSecond])]).1

/-- A backend directory holding `a.md` and `b.md`. -/
def demoBackendEntries : List (ByteStr × FsNode) :=
  [(bytes ("a.md"), .file (bytes ("A"))), (bytes ("b.md"), .file (bytes ("B")))]

/-- A central skills directory already holding a different `b.md`. -/
def demoCentral : List (ByteStr × FsNode) :=
  [(bytes ("b.md"), .file (bytes ("OLD")))]

/-- A SKILL.md body of two paragraph lines. -/
def twoLineBody : ByteStr := bytes ("First line\nsecond line\n")

/-- A run of 101 `a` bytes: a frontmatter description longer than 100 bytes. -/
def longDesc : ByteStr := List.replicate 101 97

/-- A SKILL.md with a quoted frontmatter description of 101 bytes. -/
def longDescDoc : ByteStr :=
  bytes ("---\n") ++ bytes ("description: ") ++ [34] ++ longDesc ++ [34] ++
    bytes ("\n---\nBody\n")

/-- A frontmatter SKILL.md with a quoted description `X`, parametric in the
quote byte, the description and the rest of the document. -/
def fmDoc (q : Nat) (X body : ByteStr) : ByteStr :=
  bytes ("---") ++ [10] ++ bytes ("description: ") ++ [q] ++ X ++ [q] ++ [10] ++
    bytes ("---") ++ [10] ++ body

/-- A body-only SKILL.md of a first line and a rest. -/
def bodyDoc (L1 rest : ByteStr) : ByteStr := L1 ++ [10] ++ rest

/-- The frontmatter description line `description: <q>X<q>`. -/
def descLine (q : Nat) (X : ByteStr) : ByteStr :=
  bytes ("description: ") ++ q :: (X ++ [q])

/-! ## Claim C9 -/

/-- Each return site of `extractLoop` is the truncation of the
corresponding return site of `rawLoop`. -/
theorem extractLoop_eq_truncate (lines : List ByteStr) :
    ∀ fm cnt, extractLoop lines fm cnt = truncate100 (rawLoop lines fm cnt) := by
  induction lines with
  | nil => intro fm cnt; simp [extractLoop, rawLoop, truncate100]
  | cons line rest ih =>
    intro fm cnt
    simp only [extractLoop, rawLoop]
    split
    · exact ih _ _
    · split
      · split
        · rfl
        · exact ih _ _
      · split
        · exact ih _ _
        · split
          · exact ih _ _
          · split
            · exact ih _ _
            · split
              · exact ih _ _
              · rfl

/-- The truncation policy caps every result at 100 bytes. -/
theorem truncate100_length (s : ByteStr) : (truncate100 s).length ≤ 100 := by
  unfold truncate100
  split
  · have hd : dots.length = 3 := rfl
    rw [List.length_append, List.length_take, hd]
    omega
  · omega

/-- Claim C9: the description extractor is the untruncated extraction
followed by the truncation policy, so every result is at most 100 bytes,
and any extracted text longer than 100 bytes is replaced by its first 97
bytes followed by `...`. -/
theorem c9_extract_truncated :
    (∀ content, extractDescription content = truncate100 (rawExtract content)) ∧
    (∀ content, (extractDescription content).length ≤ 100) ∧
    (∀ s : ByteStr, 100 < s.length → truncate100 s = s.take 97 ++ dots) := by
  refine ⟨fun content => extractLoop_eq_truncate _ false 0, fun content => ?_, fun s hs => ?_⟩
  · unfold extractDescription
    rw [extractLoop_eq_truncate]
    exact truncate100_length _
  · simp [truncate100, hs]

/-- Witness for C9 at a 101-byte description. -/
theorem c9_extract_truncated_witness :
    truncate100 longDesc = longDesc.take 97 ++ dots :=
  c9_extract_truncated.2.2 longDesc (by decide)

/-! ## Claim C4 -/

/-- Claim C4, refuted at concrete inputs: a body paragraph of two lines
yields only the first line, not the lines joined by spaces; and a quoted
frontmatter description of 101 bytes is returned truncated, not exactly. -/
theorem c4_counterexample_first_line_only :
    extractDescription twoLineBody ≠ bytes ("First line second line") ∧
    extractDescription twoLineBody = bytes ("First line") ∧
    extractDescription longDescDoc ≠ longDesc := by
  refine ⟨by decide, by decide, ?_⟩
  decide

/-- Splitting at an explicit newline after a newline-free line. -/
theorem splitLines_append (l rest : ByteStr) (h : (10 : Nat) ∉ l) :
    splitLines (l ++ 10 :: rest) = l :: splitLines rest := by
  induction l with
  | nil => simp [splitLines]
  | cons b t ih =>
    have hb : ¬ b = 10 := fun he => h (by rw [he]; exact List.mem_cons_self _ _)
    have ht : (10 : Nat) ∉ t := fun hm => h (List.mem_cons_of_mem _ hm)
    simp only [List.cons_append, splitLines, if_neg hb, List.append_eq, ih ht]

/-- Function `TrimSpace` is the identity on text with non-space first and last
bytes. -/
theorem trimSpace_no_trim (s : ByteStr)
    (h1 : ∀ a, s.head? = some a → isGoSpace a = false)
    (h2 : ∀ a, s.getLast? = some a → isGoSpace a = false) : trimSpace s = s := by
  have hd : s.dropWhile isGoSpace = s := by
    cases s with
    | nil => rfl
    | cons b t => simp [List.dropWhile_cons, h1 b rfl]
  have hr : s.reverse.dropWhile isGoSpace = s.reverse := by
    cases hsr : s.reverse with
    | nil => rfl
    | cons b t =>
      have hb : s.getLast? = some b := by
        rw [← List.head?_reverse, hsr]
        rfl
      simp [List.dropWhile_cons, h2 b hb]
  unfold trimSpace
  rw [hd, hr, List.reverse_reverse]

/-- A leading space is trimmed. -/
theorem trimSpace_space_cons (s : ByteStr) : trimSpace (32 :: s) = trimSpace s := by
  simp [trimSpace, List.dropWhile_cons]
  rfl

/-- Stepping `extractLoop` over an opening frontmatter fence. -/
theorem extractLoop_dashes (ls : List ByteStr) :
    extractLoop (bytes ("---") :: ls) false 0 = extractLoop ls true 1 := rfl

/-- Inside frontmatter, a well-formed quoted description line returns the
quoted text whenever it is at most 100 bytes. -/
theorem extractLoop_desc (q : Nat) (X : ByteStr) (ls : List ByteStr)
    (hq : q = 34 ∨ q = 39) (hlen : X.length ≤ 100) :
    extractLoop (descLine q X :: ls) true 1 = X := by
  have hqns : isGoSpace q = false := by
    rcases hq with h | h <;> simp [h, isGoSpace]
  have hlen13 : (bytes ("description: ") : ByteStr).length = 13 := rfl
  have hdl : descLine q X = (bytes ("description: ") ++ q :: X) ++ [q] := by
    simp [descLine]
  have htrim : trimSpace (descLine q X) = descLine q X := by
    apply trimSpace_no_trim
    · intro a ha
      have h100 : (descLine q X).head? = some 100 := rfl
      rw [h100] at ha
      injection ha with ha'
      rw [← ha']
      rfl
    · intro a ha
      rw [hdl, List.getLast?_concat] at ha
      injection ha with ha'
      rw [← ha']
      exact hqns
  have hne : ¬ (descLine q X = bytes ("---")) := by
    intro he
    have h100 : (descLine q X).head? = some 100 := rfl
    rw [he] at h100
    exact absurd h100 (by decide)
  have hcond : 12 < (descLine q X).length ∧
      (descLine q X).take 12 = bytes ("description:") := by
    constructor
    · simp only [descLine, List.length_append, List.length_cons, hlen13]
      omega
    · rw [descLine, List.take_append_of_le_length (by rw [hlen13]; omega)]
      rfl
  have hdrop : (descLine q X).drop 12 = 32 :: q :: (X ++ [q]) := by
    rw [descLine, List.drop_append_of_le_length (by rw [hlen13]; omega)]
    rfl
  have hd0 : trimSpace ((descLine q X).drop 12) = q :: (X ++ [q]) := by
    rw [hdrop, trimSpace_space_cons]
    apply trimSpace_no_trim
    · intro a ha
      injection ha with ha'
      rw [← ha']
      exact hqns
    · intro a ha
      have hg : (q :: (X ++ [q])).getLast? = some q := by
        rw [show q :: (X ++ [q]) = (q :: X) ++ [q] by simp, List.getLast?_concat]
      rw [hg] at ha
      injection ha with ha'
      rw [← ha']
      exact hqns
  have hstrip : 2 ≤ (q :: (X ++ [q])).length ∧
      ((q :: (X ++ [q])).head? = some 34 ∨ (q :: (X ++ [q])).head? = some 39) := by
    constructor
    · simp
    · rcases hq with h | h
      · left
        rw [h]
        rfl
      · right
        rw [h]
        rfl
  have hfin : ((q :: (X ++ [q])).drop 1).dropLast = X := by
    simp
  simp only [extractLoop, htrim]
  rw [if_neg hne, if_pos trivial, if_pos hcond, hd0, if_pos hstrip, hfin,
    if_neg (by omega : ¬ 100 < X.length)]

/-- Outside frontmatter, a plain content line of at most 100 bytes is
returned trimmed, ignoring everything after it. -/
theorem extractLoop_body (L1 : ByteStr) (ls : List ByteStr)
    (h2 : trimSpace L1 ≠ bytes ("---"))
    (h3 : trimSpace L1 ≠ [])
    (h4 : (trimSpace L1).head? ≠ some 35)
    (h5 : ¬(3 ≤ (trimSpace L1).length ∧ (trimSpace L1).take 3 = bytes ("```")))
    (h6 : (trimSpace L1).head? ≠ some 45)
    (h7 : (trimSpace L1).length ≤ 100) :
    extractLoop (L1 :: ls) false 0 = trimSpace L1 := by
  simp only [extractLoop]
  rw [if_neg h2, if_neg (by decide : ¬ ((false : Bool) = true)), if_neg h3, if_neg h4,
    if_neg h5, if_neg h6, if_neg (by omega : ¬ 100 < (trimSpace L1).length)]

/-- Claim C4 as amended: a quoted frontmatter description `X` is returned
exactly when `X` is at most 100 bytes (longer values fall to the C9
truncation); a body-only document returns its first content line trimmed —
the paragraph's lines are not joined. -/
theorem c4_amended_description_roundtrip :
    (∀ (q : Nat) (X body : ByteStr), (q = 34 ∨ q = 39) → (10 : Nat) ∉ X →
       X.length ≤ 100 → extractDescription (fmDoc q X body) = X) ∧
    (∀ (L1 rest : ByteStr), (10 : Nat) ∉ L1 →
       trimSpace L1 ≠ bytes ("---") → trimSpace L1 ≠ [] →
       (trimSpace L1).head? ≠ some 35 →
       ¬(3 ≤ (trimSpace L1).length ∧ (trimSpace L1).take 3 = bytes ("```")) →
       (trimSpace L1).head? ≠ some 45 → (trimSpace L1).length ≤ 100 →
       extractDescription (bodyDoc L1 rest) = trimSpace L1) := by
  constructor
  · intro q X body hq h10 hlen
    have hX10 : (10 : Nat) ∉ descLine q X := by
      intro hm
      rw [descLine] at hm
      rcases List.mem_append.mp hm with h | h
      · exact absurd h (by decide)
      · rcases List.mem_cons.mp h with he | h'
        · rcases hq with h34 | h39 <;> omega
        · rcases List.mem_append.mp h' with h'' | h''
          · exact h10 h''
          · rcases hq with h34 | h39 <;> simp_all
    have he : fmDoc q X body =
        bytes ("---") ++ 10 :: (descLine q X ++ 10 :: (bytes ("---") ++ 10 :: body)) := by
      simp [fmDoc, descLine]
    unfold extractDescription
    rw [he, splitLines_append _ _ (by decide), splitLines_append _ _ hX10,
      splitLines_append _ _ (by decide), extractLoop_dashes]
    exact extractLoop_desc q X _ hq hlen
  · intro L1 rest h10 h2 h3 h4 h5 h6 h7
    have hb : bodyDoc L1 rest = L1 ++ 10 :: rest := by
      simp [bodyDoc]
    unfold extractDescription
    rw [hb, splitLines_append _ _ h10]
    exact extractLoop_body L1 _ h2 h3 h4 h5 h6 h7

/-- Witness for the amended C4 theorem at a concrete quoted description
and a concrete two-line body. -/
theorem c4_amended_description_roundtrip_witness :
    extractDescription (fmDoc 34 (bytes ("Does things")) (bytes ("Body\n"))) =
      bytes ("Does things") ∧
    extractDescription (bodyDoc (bytes ("Hello world")) (bytes ("more"))) =
      trimSpace (bytes ("Hello world")) :=
  ⟨c4_amended_description_roundtrip.1 34 (bytes ("Does things")) (bytes ("Body\n"))
      (Or.inl rfl) (by decide) (by decide),
   c4_amended_description_roundtrip.2 (bytes ("Hello world")) (bytes ("more"))
      (by decide) (by decide) (by decide) (by decide) (by decide) (by decide) (by decide)⟩

/-! ## Claim C1 -/

/-- Claim C1, evaluated at the failing input (code bug): the cited
`ScanLocalSkills` omits a skill installed as a symbolic link — its
`DirEntry.IsDir()` filter is an lstat kind and rejects symlinks — although
`os.Stat` resolves the entry to a directory containing `SKILL.md`; the
revised scan in the manifest package includes the same entry with its name,
path and extracted description, as the claim requires. -/
theorem c1_symlinked_skill_missing_from_scan :
    scanLocalSkills symlinkedSkillDir (fun _ => false) = [] ∧
    (statPath (.dir symlinkedSkillDir) [bytes ("foo"), skillMdName]).isSome = true ∧
    scanLocalSkillsFollow symlinkedSkillDir (fun _ => false) =
      [(bytes ("foo"), symlinkedSkillRecord)] :=
  ⟨rfl, rfl, rfl⟩

/-! ## Claim C7 -/

/-- Claim C7: scanning a repository where `skills/foo/SKILL.md` is
reachable both through the root scan's category descent and through the
`skills/` search directory yields exactly one entry for `foo`, with subpath
`skills/foo`, for every descriptor content, URL and root name. -/
theorem c7_scan_dedup_by_subpath (c u rn : ByteStr) :
    scanForSkills (doublyReachable c) u rn = .ok [fooEntry c u] := rfl

/-! ## Claim C10 -/

/-- Claim C10: `RemoveLink` succeeds and deletes nothing when the expanded
path does not exist, deletes exactly when the path is a symbolic link, and
refuses any non-symlink entry with an error, leaving it untouched. -/
theorem c10_remove_link_boundary :
    removeLink .absent = (.ok (), .absent) ∧
    removeLink .linkToCentral = (.ok (), .absent) ∧
    removeLink .linkOther = (.ok (), .absent) ∧
    (∀ es, removeLink (.realDir es) = (.error .notASymlink, .realDir es)) ∧
    removeLink .regFile = (.error .notASymlink, .regFile) :=
  ⟨rfl, rfl, rfl, fun _ => rfl, rfl⟩

/-! ## Claim C3 -/

/-- Claim C3, refuted at a concrete input: two remotes contributing entries
named `dup` produce a merged index in which that name appears twice, and
both copies appear in the search results — later duplicates are neither
dropped from the merged index nor absent from list and search results. -/
theorem c3_counterexample_duplicates_survive :
    ((listSkills dupMerged).filter (fun s => s.name = bytes ("dup"))).length = 2 ∧
    ((searchSkills dupMerged []).filter (fun s => s.name = bytes ("dup"))).length = 2 := by
  decide

/-- Function `find?` over an append returns an answer found in the front list. -/
theorem find?_append_left {α : Type} (l1 l2 : List α) (p : α → Bool) (e : α)
    (h : l1.find? p = some e) : (l1 ++ l2).find? p = some e := by
  induction l1 with
  | nil => simp [List.find?] at h
  | cons a t ih =>
    simp only [List.cons_append, List.find?] at h ⊢
    cases hp : p a <;> simp [hp] at h ⊢ <;> simp_all [ih]

/-- Claim C3 as amended: the merged index concatenates the tagged entries of
all successful remotes in configured order with no name deduplication — so
duplicate names remain in list and search results — while by-name lookup
(`GetSkill`) returns the entry contributed by the earliest remote. -/
theorem c3_amended_merge_concat (r1 r2 : Repo) (L1 L2 : List SkillEntry)
    (n : ByteStr) :
    (fetchMerge [(r1, .ok L1), (r2, .ok L2)]).1 =
      tagSkills r1.name L1 ++ tagSkills r2.name L2 ∧
    (∀ e, getSkill (tagSkills r1.name L1) n = some e →
       getSkill ((fetchMerge [(r1, .ok L1), (r2, .ok L2)]).1) n = some e) := by
  have hm : (fetchMerge [(r1, .ok L1), (r2, .ok L2)]).1 =
      tagSkills r1.name L1 ++ tagSkills r2.name L2 := by
    simp [fetchMerge]
  refine ⟨hm, fun e he => ?_⟩
  rw [hm]
  exact find?_append_left _ _ _ e he

/-- Witness for the amended C3 theorem: with both remotes contributing a
skill named `dup`, the merge keeps both entries and lookup returns the
first remote's copy. -/
theorem c3_amended_merge_concat_witness :
    getSkill dupMerged (bytes ("dup")) =
      some { dupFirst with source := { dupFirst.source with repoName := bytes ("one") } } :=
  (c3_amended_merge_concat ⟨bytes ("one"), bytes ("u1")⟩ ⟨bytes ("two"), bytes ("u2")⟩
      [dupFirst] [dupSecond] (bytes ("dup"))).2 _ (by decide)

/-! ## Claim C5 -/

/-- Claim C5, refuted at a concrete input: `Load` on a malformed cache file
(one the YAML decoder rejects) returns the decode error rather than a null
cache without error. -/
theorem c5_counterexample_malformed_load_fails :
    cacheLoad (some (bytes ("garbage"))) (fun _ => none) = .error () := rfl

/-- Claim C5 as amended: an absent cache file loads as a null cache without
error and `IsValid` is false on a null cache; a malformed file makes `Load`
return the decode error (the in-memory cache stays unset, so `IsValid`
remains false); a well-formed file loads its document. -/
theorem c5_amended_cache_load :
    (∀ parse : ByteStr → Option Cache, cacheLoad none parse = .ok none) ∧
    (∀ now ttl : Int, cacheIsValid none now ttl = false) ∧
    (∀ data parse, parse data = none → cacheLoad (some data) parse = .error ()) ∧
    (∀ data parse c, parse data = some c → cacheLoad (some data) parse = .ok (some c)) := by
  refine ⟨fun _ => rfl, fun _ _ => rfl, ?_, ?_⟩
  · intro data parse h
    simp [cacheLoad, h]
  · intro data parse c h
    simp [cacheLoad, h]

/-- Witness for the amended C5 theorem at a concrete malformed file and a
concrete well-formed one. -/
theorem c5_amended_cache_load_witness :
    cacheLoad (some (bytes ("garbage"))) (fun _ => none) = .error () ∧
    cacheLoad (some (bytes ("ok"))) (fun _ => some ⟨some [], 0⟩) = .ok (some ⟨some [], 0⟩) :=
  ⟨c5_amended_cache_load.2.2.1 (bytes ("garbage")) (fun _ => none) rfl,
   c5_amended_cache_load.2.2.2 (bytes ("ok")) (fun _ => some ⟨some [], 0⟩) ⟨some [], 0⟩ rfl⟩

/-! ## Claim C2 -/

/-- Updating a name binds it. -/
theorem lookupE_setEntry_self (cs : List (ByteStr × FsNode)) (n : ByteStr) (e : FsNode) :
    lookupE (setEntry cs n e) n = some e := by
  induction cs with
  | nil => simp [setEntry, lookupE]
  | cons hd t ih =>
    obtain ⟨m, x⟩ := hd
    by_cases h : m = n
    · simp [setEntry, h, lookupE]
    · simp [setEntry, h, lookupE, ih]

/-- Updating one name leaves the others' bindings unchanged. -/
theorem lookupE_setEntry_ne (cs : List (ByteStr × FsNode)) (m n : ByteStr)
    (e : FsNode) (h : m ≠ n) :
    lookupE (setEntry cs m e) n = lookupE cs n := by
  induction cs with
  | nil => simp [setEntry, lookupE, h]
  | cons hd t ih =>
    obtain ⟨k, x⟩ := hd
    by_cases hk : k = m
    · subst hk
      simp [setEntry, lookupE, h]
    · simp [setEntry, hk, lookupE, ih]

/-- Updating one name leaves the others' stat-presence unchanged. -/
theorem statPresent_setEntry_ne (cs : List (ByteStr × FsNode)) (m n : ByteStr)
    (e : FsNode) (h : m ≠ n) :
    statPresent (setEntry cs m e) n = statPresent cs n := by
  simp [statPresent, lookupE_setEntry_ne cs m n e h]

/-- The move loop never touches a central binding that already stats. -/
theorem migrateLoop_present_preserved (es : List (ByteStr × FsNode)) :
    ∀ cs n, statPresent cs n = true →
      lookupE (migrateLoop es cs).2 n = lookupE cs n := by
  induction es with
  | nil => intro cs n _; simp [migrateLoop]
  | cons hd rest ih =>
    intro cs n h
    obtain ⟨m, x⟩ := hd
    by_cases hp : statPresent cs m
    · rcases hml : migrateLoop rest cs with ⟨lo, c'⟩
      have hc : (migrateLoop ((m, x) :: rest) cs).2 = c' := by
        simp [migrateLoop, hp, hml]
      rw [hc]
      have hih := ih cs n h
      rwa [hml] at hih
    · have hmn : m ≠ n := fun he => by
        rw [he, h] at hp
        exact hp rfl
      have hc : migrateLoop ((m, x) :: rest) cs = migrateLoop rest (setEntry cs m x) := by
        simp [migrateLoop, hp]
      rw [hc, ih (setEntry cs m x) n (by rw [statPresent_setEntry_ne cs m n x hmn]; exact h)]
      exact lookupE_setEntry_ne cs m n x hmn

/-- A source entry whose name already stats in the central directory is
left behind by the move loop. -/
theorem migrateLoop_collision_stays (es : List (ByteStr × FsNode)) :
    ∀ cs p, p ∈ es → statPresent cs p.1 = true → p ∈ (migrateLoop es cs).1 := by
  induction es with
  | nil => intro cs p hin _; simp at hin
  | cons hd rest ih =>
    intro cs p hin h
    obtain ⟨m, x⟩ := hd
    rcases hml : migrateLoop rest cs with ⟨lo, c'⟩
    rcases List.mem_cons.mp hin with heq | htail
    · subst heq
      have hc : (migrateLoop ((m, x) :: rest) cs).1 = (m, x) :: lo := by
        simp [migrateLoop, h, hml]
      rw [hc]
      exact List.mem_cons_self _ _
    · by_cases hp : statPresent cs m
      · have hc : (migrateLoop ((m, x) :: rest) cs).1 = (m, x) :: lo := by
          simp [migrateLoop, hp, hml]
        rw [hc]
        refine List.mem_cons_of_mem _ ?_
        have := ih cs p htail h
        rwa [hml] at this
      · have hmn : m ≠ p.1 := fun he => by
          rw [he, h] at hp
          exact hp rfl
        have hc : migrateLoop ((m, x) :: rest) cs = migrateLoop rest (setEntry cs m x) := by
          simp [migrateLoop, hp]
        rw [hc]
        exact ih (setEntry cs m x) p htail
          (by rw [statPresent_setEntry_ne cs m p.1 x hmn]; exact h)

/-- The move loop leaves bindings of names absent from the source
unchanged. -/
theorem migrateLoop_lookup_preserved (es : List (ByteStr × FsNode)) :
    ∀ cs n, (∀ q ∈ es, q.1 ≠ n) →
      lookupE (migrateLoop es cs).2 n = lookupE cs n := by
  induction es with
  | nil => intro cs n _; simp [migrateLoop]
  | cons hd rest ih =>
    intro cs n hne
    obtain ⟨m, x⟩ := hd
    have hmn : m ≠ n := hne (m, x) (List.mem_cons_self _ _)
    have hrest : ∀ q ∈ rest, q.1 ≠ n := fun q hq => hne q (List.mem_cons_of_mem _ hq)
    by_cases hp : statPresent cs m
    · rcases hml : migrateLoop rest cs with ⟨lo, c'⟩
      have hc : (migrateLoop ((m, x) :: rest) cs).2 = c' := by
        simp [migrateLoop, hp, hml]
      rw [hc]
      have hih := ih cs n hrest
      rwa [hml] at hih
    · have hc : migrateLoop ((m, x) :: rest) cs = migrateLoop rest (setEntry cs m x) := by
        simp [migrateLoop, hp]
      rw [hc, ih (setEntry cs m x) n hrest]
      exact lookupE_setEntry_ne cs m n x hmn

/-- When the move loop leaves nothing behind, every source entry is bound
in the final central directory. -/
theorem migrateLoop_ok_moved (es : List (ByteStr × FsNode)) :
    ∀ cs, (es.map Prod.fst).Nodup → (migrateLoop es cs).1 = [] →
      ∀ p ∈ es, lookupE (migrateLoop es cs).2 p.1 = some p.2 := by
  induction es with
  | nil => intro cs _ _ p hin; simp at hin
  | cons hd rest ih =>
    intro cs hnd hempty p hin
    obtain ⟨m, x⟩ := hd
    by_cases hp : statPresent cs m
    · exfalso
      rcases hml : migrateLoop rest cs with ⟨lo, c'⟩
      have hc : (migrateLoop ((m, x) :: rest) cs).1 = (m, x) :: lo := by
        simp [migrateLoop, hp, hml]
      rw [hc] at hempty
      exact List.cons_ne_nil _ _ hempty
    · have hc : migrateLoop ((m, x) :: rest) cs = migrateLoop rest (setEntry cs m x) := by
        simp [migrateLoop, hp]
      rw [hc] at hempty ⊢
      have hnotin : m ∉ rest.map Prod.fst := by
        have := hnd
        simp only [List.map_cons, List.nodup_cons] at this
        exact this.1
      rcases List.mem_cons.mp hin with heq | htail
      · subst heq
        have hne : ∀ q ∈ rest, q.1 ≠ m := by
          intro q hq he
          exact hnotin (he ▸ List.mem_map_of_mem Prod.fst hq)
        rw [migrateLoop_lookup_preserved rest (setEntry cs m x) m hne]
        exact lookupE_setEntry_self cs m x
      · exact ih (setEntry cs m x)
          (by simpa using (List.nodup_cons.mp (by simpa using hnd)).2) hempty p htail

/-- Claim C2: when the backend path is a real directory, `MigrateExistingDir`
never overwrites a central entry that already exists (stats) — that copy's
binding is unchanged and the colliding source entry stays in place — and
whenever it returns success the backend path has become the symlink to the
central directory and every source entry is now bound, unchanged, in the
central directory (no file is lost). -/
theorem c2_migrate_collision_policy (es cs : List (ByteStr × FsNode))
    (hnd : (es.map Prod.fst).Nodup) :
    (∀ n, statPresent cs n = true →
       lookupE (migrateExistingDir (.realDir es) cs).2.2 n = lookupE cs n) ∧
    (∀ p ∈ es, statPresent cs p.1 = true →
       ∃ lo, (migrateExistingDir (.realDir es) cs).2.1 = .realDir lo ∧ p ∈ lo) ∧
    ((migrateExistingDir (.realDir es) cs).1 = .ok () →
       (migrateExistingDir (.realDir es) cs).2.1 = .linkToCentral ∧
       ∀ p ∈ es, lookupE (migrateExistingDir (.realDir es) cs).2.2 p.1 = some p.2) := by
  rcases hml : migrateLoop es cs with ⟨lo, c'⟩
  by_cases hlo : lo.isEmpty
  · have hme : migrateExistingDir (.realDir es) cs = (.ok (), .linkToCentral, c') := by
      simp [migrateExistingDir, hml, hlo]
    refine ⟨fun n h => ?_, fun p hp h => ?_, fun _ => ⟨by rw [hme], fun p hp => ?_⟩⟩
    · rw [hme]
      have := migrateLoop_present_preserved es cs n h
      rwa [hml] at this
    · exfalso
      have := migrateLoop_collision_stays es cs p hp h
      rw [hml] at this
      rw [List.isEmpty_iff] at hlo
      rw [hlo] at this
      exact List.not_mem_nil p this
    · rw [hme]
      have := migrateLoop_ok_moved es cs hnd (by rw [hml, List.isEmpty_iff.mp hlo]) p hp
      rwa [hml] at this
  · have hme : migrateExistingDir (.realDir es) cs = (.error .removeFailed, .realDir lo, c') := by
      simp [migrateExistingDir, hml, hlo]
    refine ⟨fun n h => ?_, fun p hp h => ?_, fun hok => ?_⟩
    · rw [hme]
      have := migrateLoop_present_preserved es cs n h
      rwa [hml] at this
    · refine ⟨lo, by rw [hme], ?_⟩
      have := migrateLoop_collision_stays es cs p hp h
      rwa [hml] at this
    · rw [hme] at hok
      exact absurd hok (by simp)

/-- Witness for C2 at a concrete backend directory colliding with the
central directory on `b.md`: the central copy is unchanged and the
colliding source entry stays behind. -/
theorem c2_migrate_collision_policy_witness :
    lookupE (migrateExistingDir (.realDir demoBackendEntries) demoCentral).2.2
        (bytes ("b.md")) = some (.file (bytes ("OLD"))) ∧
    ∃ lo, (migrateExistingDir (.realDir demoBackendEntries) demoCentral).2.1 =
        .realDir lo ∧ (bytes ("b.md"), FsNode.file (bytes ("B"))) ∈ lo := by
  have h := c2_migrate_collision_policy demoBackendEntries demoCentral (by decide)
  exact ⟨(h.1 (bytes ("b.md")) rfl).trans rfl,
         h.2.1 (bytes ("b.md"), FsNode.file (bytes ("B"))) (by simp [demoBackendEntries]) rfl⟩

/-! ## Claim C6 -/

/-- Claim C6: on a repository with uncommitted local modifications,
`Update` fails with the local-changes error while the repository state is
unchanged and no git fetch, merge or reset has been invoked; and a hard
reset to `FETCH_HEAD` appears in the invocation trace only when the
working tree was clean. -/
theorem c6_update_refuses_modified (s : RepoSt) (env : GitEnv) (tag sp : ByteStr)
    (hgit : s.isGit = true) :
    (s.modified = true → env.statusOk = true →
       update s env tag sp = (.error .localChanges, s, [])) ∧
    (GitOp.resetHard ∈ (update s env tag sp).2.2 → s.modified = false) := by
  constructor
  · intro hm hst
    simp [update, isModified, hgit, hst, hm]
  · intro hmem
    by_contra hmod
    have hm : s.modified = true := by
      cases h : s.modified
      · exact absurd h hmod
      · rfl
    cases hst : env.statusOk <;>
      simp [update, isModified, hgit, hst, hm] at hmem

/-- Witness for C6 at a concrete modified repository. -/
theorem c6_update_refuses_modified_witness :
    update ⟨true, true, bytes ("aaa")⟩ ⟨true, true, true, true, bytes ("bbb")⟩
        [] (bytes ("p")) =
      (.error .localChanges, ⟨true, true, bytes ("aaa")⟩, []) :=
  (c6_update_refuses_modified ⟨true, true, bytes ("aaa")⟩
      ⟨true, true, true, true, bytes ("bbb")⟩ [] (bytes ("p")) rfl).1 rfl rfl

/-! ## Claim C8 -/

/-- Claim C8, refuted at a concrete input: when the remote head query
fails, `IsRepoOutdated` does report not-outdated (`false`) but surfaces the
error alongside rather than returning no error. -/
theorem c8_counterexample_error_is_surfaced :
    isRepoOutdated (.ok (bytes ("aaa"))) (.error .lsRemoteFailed) =
      (false, some .lsRemoteFailed) ∧
    (isRepoOutdated (.ok (bytes ("aaa"))) (.error .lsRemoteFailed)).2 ≠ none := by
  decide

/-- Claim C8 as amended: with both head queries succeeding, the outdated
flag is true exactly when local and remote heads differ; on any error the
flag degrades to `false` while the error value is returned alongside (for
callers to ignore). -/
theorem c8_amended_outdated (a : ByteStr) (out : ByteStr) (e : GitErr)
    (r : Except GitErr ByteStr) :
    (∀ b rest, fields out = b :: rest →
       isRepoOutdated (.ok a) (.ok out) = (decide (a ≠ b), none)) ∧
    (fields out = [] →
       isRepoOutdated (.ok a) (.ok out) = (false, some .lsRemoteEmpty)) ∧
    isRepoOutdated (.error e) r = (false, some e) ∧
    isRepoOutdated (.ok a) (.error e) = (false, some .lsRemoteFailed) := by
  refine ⟨fun b rest hf => ?_, fun hf => ?_, rfl, rfl⟩
  · simp [isRepoOutdated, remoteHEAD, hf]
  · simp [isRepoOutdated, remoteHEAD, hf]

/-- Witness for the amended C8 theorem: differing heads are outdated,
identical heads are not. -/
theorem c8_amended_outdated_witness :
    isRepoOutdated (.ok (bytes ("aaa"))) (.ok (bytes ("bbb\tHEAD"))) = (true, none) ∧
    isRepoOutdated (.ok (bytes ("aaa"))) (.ok (bytes ("aaa\tHEAD"))) = (false, none) := by
  constructor
  · have h := (c8_amended_outdated (bytes ("aaa")) (bytes ("bbb\tHEAD"))
        .lsRemoteFailed (.error .lsRemoteFailed)).1 (bytes ("bbb")) [bytes ("HEAD")]
        (by decide)
    rw [h]
    decide
  · have h := (c8_amended_outdated (bytes ("aaa")) (bytes ("aaa\tHEAD"))
        .lsRemoteFailed (.error .lsRemoteFailed)).1 (bytes ("aaa")) [bytes ("HEAD")]
        (by decide)
    rw [h]
    decide

end Lazyas
